import Mathlib

/-! Shallow embedding of the two scripts of the repository
(archiveDataToJSON_MOD.py and MachineTests_TokenMismatchIssue.py) and proofs
about the embedded code.  HTTP traffic is modeled by environments that record
the responses the servers would give, process termination by explicit result
values, and Python dictionaries by association lists, lookup functions or
structures.  All definitions are computable so that concrete runs can be
evaluated inside proofs. -/

namespace ArchiveScript

/-- Python string comparison is lexicographic on code points.  This Boolean
comparison on the underlying character lists models the order used by
folders.sort(). -/
def charListLeB : List Char → List Char → Bool
  | [], _ => true
  | _ :: _, [] => false
  | a :: as, b :: bs =>
    if a.toNat < b.toNat then true
    else if b.toNat < a.toNat then false
    else charListLeB as bs

/-- Lexicographic less-or-equal on strings, the order of folders.sort(). -/
def strLeB (s t : String) : Bool := charListLeB s.data t.data

/-- The propositional form of the lexicographic string order. -/
def strLe (s t : String) : Prop := strLeB s t = true

instance : DecidableRel strLe := fun s t => by unfold strLe; infer_instance

/-- Removal of duplicates, modeling the passage of the folders list through a
Python set.  The iteration order of the set does not matter here because the
result is sorted immediately afterwards. -/
def dedupStrAux (seen : List String) : List String → List String
  | [] => []
  | s :: rest =>
    if seen.contains s then dedupStrAux seen rest
    else s :: dedupStrAux (s :: seen) rest

def dedupStr (l : List String) : List String := dedupStrAux [] l

/-- The two folders dropped before the loop: remove_folders = ["System", "Utilities"]. -/
def remove_folders : List String := ["System", "Utilities"]

/-- Models folders = list(set(folders) - set(remove_folders)) followed by
folders.append("") and folders.sort().  The set difference is a filter plus
duplicate removal; the sort normalizes whatever iteration order the Python
set would produce. -/
def processFolders (folders : List String) : List String :=
  List.insertionSort strLe
    (dedupStr (folders.filter (fun f => !(remove_folders.contains f))) ++ [""])

/-- Models create_params_for_request (identical in both scripts).  A Python
dict is an association list in insertion order; passing token_action=None is
Option.none, every string argument is Option.some. -/
def create_params_for_request (username password : String) :
    Option String → List (String × String)
  | none => [("f", "json")]
  | some token_action =>
    if token_action == "getToken" then
      [("username", username), ("password", password),
       ("client", "requestip"), ("f", "json")]
    else
      [("token", token_action), ("f", "json")]

/-- Contract of random.randint: for a ≤ b the result lies in [a, b], both ends
inclusive. -/
def ValidRandint (randint : Int → Int → Int) : Prop :=
  ∀ a b : Int, a ≤ b → a ≤ randint a b ∧ randint a b ≤ b

/-- Models create_random_int, with the random.randint dependency passed in
explicitly. -/
def create_random_int (randint : Int → Int → Int) (upper_integer : Int) : Int :=
  let options := upper_integer - 1
  randint 0 options

/-- The keys of the SERVER_MACHINE_NAMES dictionary, a four-entry table keyed
0 through 3. -/
def server_machine_names_keys : List Int := [0, 1, 2, 3]

/-- Model of one HTTP response as seen by get_value_from_response: the post can
fail in transport, the body can be html (raising NotJSONException), the body
can fail json decoding, the decoded json can be a non-dictionary (TypeError on
subscripting), or it can be a dictionary modeled by its lookup function. -/
inductive Response where
  | transportError
  | htmlContent
  | decodeError
  | nonDict
  | dict (lookup : String → Option String)

inductive FetchResult where
  | exitProcess
  | value (v : String)
deriving DecidableEq

/-- Models get_value_from_response of archiveDataToJSON_MOD.py: every failure
path prints a message and calls exit(); only a successful key lookup returns
a value.  The while-loop of the original design is commented out in this
script, so each call consumes exactly one response. -/
def get_value_from_response (resp : Response) (search_key : String) : FetchResult :=
  match resp with
  | .transportError => .exitProcess
  | .htmlContent => .exitProcess
  | .decodeError => .exitProcess
  | .nonDict => .exitProcess
  | .dict lookup =>
    match lookup search_key with
    | none => .exitProcess
    | some value => .value value

/-- Models value.replace("/", "") in the folder setter of ReportObject: every
slash character is removed. -/
def stripSlashes (s : String) : String :=
  String.mk (s.data.filter (fun c => c != '/'))

/-- GROUPED_TYPES_LIST of the script. -/
def GROUPED_TYPES_LIST : List String :=
  ["GeometryServer", "SearchServer", "GlobeServer", "GPServer",
   "GeocodeServer", "GeoDataServer"]

def GEODATA_ALIAS : String := "Geodata Data"

def GEODATA_ROOT : String := "https://geodata.md.gov/imap/rest/services"

/-- One entry of the heterogeneous extensions array of a service report; the
enabled field is carried in its str() form, which is the only way the script
uses it. -/
structure Extension where
  typeName : String
  enabled : String
deriving DecidableEq

/-- One layer of a map service; id is carried as str(layer["id"]). -/
structure Layer where
  id : String
  name : String
deriving DecidableEq

/-- One service report as returned by the report endpoint of a folder,
restricted to the fields the script reads: type, serviceName,
status.realTimeState, properties.isCached and extensions.  layersResponse is
environment data: the layers value that the rest endpoint of this service
would return if asked (the script only asks for started map services). -/
structure Report where
  type_ : String
  serviceName : String
  realTimeState : String
  isCached : String
  extensions : List Extension
  layersResponse : List Layer
deriving DecidableEq

/-- The mutable attributes of the ReportObject class.  The machine url field
is omitted: it only feeds the layers request, whose response is modeled in
Report.layersResponse. -/
structure ReportObject where
  folder : String
  type_ : String
  service_name : String
  real_time_status : String
  cached : String
  feature_service : String
  kml : String
  wms : String
  wfs : String
  layers : String
deriving DecidableEq

/-- Models ReportObject.__init__: the folder setter strips slashes, all
capability fields start at "NA". -/
def ReportObject.init (report : Report) (folder : String) : ReportObject :=
  { folder := stripSlashes folder
    type_ := report.type_
    service_name := report.serviceName
    real_time_status := report.realTimeState
    cached := "NA"
    feature_service := "NA"
    kml := "NA"
    wms := "NA"
    wfs := "NA"
    layers := "NA" }

/-- Models the rest_service_url_geodata property: the geodata url of the
service. -/
def rest_service_url_geodata (obj : ReportObject) : String :=
  GEODATA_ROOT ++ "/" ++ obj.folder ++ "/" ++ obj.service_name ++ "/" ++ obj.type_

/-- The json object written for one service, modeled structurally: the keys of
create_base_dictionary plus the optional layers key that
create_json_string_mapserver adds. -/
structure OutRecord where
  serviceName : String
  server : String
  folder : String
  url : String
  type_ : String
  status : String
  cached : String
  featureService : String
  kml : String
  wms : String
  wfs : String
  layers : Option String
deriving DecidableEq

/-- Models create_base_dictionary. -/
def create_base_dictionary (obj : ReportObject) : OutRecord :=
  { serviceName := obj.service_name
    server := GEODATA_ALIAS
    folder := obj.folder
    url := rest_service_url_geodata obj
    type_ := obj.type_
    status := obj.real_time_status
    cached := obj.cached
    featureService := obj.feature_service
    kml := obj.kml
    wms := obj.wms
    wfs := obj.wfs
    layers := none }

/-- Models create_json_string_mapserver: the base dictionary plus the layers
key. -/
def create_json_string_mapserver (obj : ReportObject) : OutRecord :=
  { create_base_dictionary obj with layers := some obj.layers }

/-- Models extract_extension_properties with its default keyword arguments:
the sublist of the extensions array whose typeName equals name_check. -/
def extract_extension_properties (extensions : List Extension)
    (name_check : String) : List Extension :=
  extensions.filter (fun entity => entity.typeName == name_check)

/-- Models json.dumps applied to the layer dictionary with keys id and name
(string values are assumed to need no json escaping, as the script assumes
too). -/
def layerJson (layer : Layer) : String :=
  "\x7b\"id\": \"" ++ layer.id ++ "\", \"name\": \"" ++ layer.name ++ "\"\x7d"

/-- Models the layer loop of the MapServer branch: commas are inserted before
every layer except the first, tracked by layer_iteration_count. -/
def layersLoop : List Layer → Nat → String → String
  | [], _, layers_string => layers_string
  | layer :: rest, layer_iteration_count, layers_string =>
    let layers_string :=
      if layer_iteration_count == 0 then layers_string else layers_string ++ ","
    layersLoop rest (layer_iteration_count + 1) (layers_string ++ layerJson layer)

/-- Replaces one capability value with the enabled value of the first matching
extension entry when the extracted list is non-empty (that is
props[0]["enabled"]), keeping the current value otherwise. -/
def flagFromProps (props : List Extension) (current : String) : String :=
  match props with
  | [] => current
  | p :: _ => p.enabled

/-- Models the extensions block of the MapServer branch, guarded by
len(report_object.extensions) > 0.  The four conditional assignments of the
script touch four distinct attributes, so they are modeled as one simultaneous
record update built from flagFromProps. -/
def applyMapServerExtensions (report : Report) (obj : ReportObject) :
    ReportObject :=
  if report.extensions.length > 0 then
    let kml_properties := extract_extension_properties report.extensions "KmlServer"
    let wms_properties := extract_extension_properties report.extensions "WMSServer"
    let wfs_properties := extract_extension_properties report.extensions "WFSServer"
    let feature_server_properties :=
      extract_extension_properties report.extensions "FeatureServer"
    { obj with
      feature_service := flagFromProps feature_server_properties obj.feature_service
      kml := flagFromProps kml_properties obj.kml
      wms := flagFromProps wms_properties obj.wms
      wfs := flagFromProps wfs_properties obj.wfs }
  else obj

/-- Result of handling one service report in the inner loop of main: the final
report object, the written json line (none when line stays empty) and whether
a layers request was issued. -/
structure ReportStep where
  obj : ReportObject
  line : Option OutRecord
  layersRequested : Bool
deriving DecidableEq

/-- Models the body of the report loop of main for one report: dispatch on the
declared service type; grouped simple types write the base dictionary,
MapServer adds cache, capability flags and the layers string (requesting the
layers only when the real-time state is STARTED), ImageServer derives the wms
flag only, and any other type leaves the line empty. -/
def processReport (report : Report) (folder_name : String) : ReportStep :=
  let report_object := ReportObject.init report folder_name
  if GROUPED_TYPES_LIST.contains report_object.type_ then
    { obj := report_object
      line := some (create_base_dictionary report_object)
      layersRequested := false }
  else if report_object.type_ == "MapServer" then
    let report_object := { report_object with cached := report.isCached }
    let report_object := applyMapServerExtensions report report_object
    let started := report_object.real_time_status == "STARTED"
    let layers_string :=
      "[" ++ (if started then layersLoop report.layersResponse 0 "" else "") ++ "]"
    let report_object := { report_object with layers := layers_string }
    { obj := report_object
      line := some (create_json_string_mapserver report_object)
      layersRequested := started }
  else if report.type_ == "ImageServer" then
    let wms_properties := extract_extension_properties report.extensions "WMSServer"
    let report_object :=
      { report_object with wms := flagFromProps wms_properties report_object.wms }
    { obj := report_object
      line := some (create_base_dictionary report_object)
      layersRequested := false }
  else
    { obj := report_object, line := none, layersRequested := false }

/-- One write to the output file, decomposed into the json tokens the script
emits: the opening and closing brackets, the separating commas, and the
serialized records. -/
inductive Token where
  | lb
  | rb
  | comma
  | record (r : OutRecord)
deriving DecidableEq

/-- Environment of one run of the archive script: the folders value returned
by the admin services endpoint and, for each folder url (the folder name with
its trailing slash), the reports value returned by its report endpoint.  The
admin token and the selected machine name do not influence the written
records, so they are not parameters of the model. -/
structure Env where
  folders : List String
  reports : String → List Report

/-- Models the folder_name computation of the report loop: folder would be
renamed to "Root" if it were empty at that point (it never is, because the
loop appended a slash to it just before). -/
def folderNameFor (folder : String) : String :=
  if folder == "" then "Root" else folder

/-- The lines written for the reports of one folder, in report order. -/
def linesOf (folder_name : String) : List Report → List OutRecord
  | [] => []
  | report :: rest =>
    match (processReport report folder_name).line with
    | none => linesOf folder_name rest
    | some r => r :: linesOf folder_name rest

/-- Models the report loop of main: the line gets a comma prefix unless it is
the first written line of the folder (report_iteration_count == 0), empty
lines are not written, and the count only advances on written lines.  Returns
the tokens written and the final report_iteration_count. -/
def reportLoopGo (folder_name : String) :
    List Report → Nat → List Token → List Token × Nat
  | [], report_iteration_count, acc => (acc, report_iteration_count)
  | report :: rest, report_iteration_count, acc =>
    match (processReport report folder_name).line with
    | none => reportLoopGo folder_name rest report_iteration_count acc
    | some r =>
      reportLoopGo folder_name rest (report_iteration_count + 1)
        (acc ++ (if report_iteration_count == 0 then [Token.record r]
                 else [Token.comma, Token.record r]))

/-- State threaded through the folder loop: the tokens written to the file so
far and the folder urls for which a report request has been issued. -/
structure LoopState where
  tokens : List Token
  requests : List String
deriving DecidableEq

/-- Models the folder loop of main.  folder_iteration_count is incremented
before the root check; the root entries "" and "/" are skipped before any
request; otherwise the folder gets its trailing slash, its report endpoint is
requested, the report loop writes the records of the folder, and a trailing
comma is written when this is not the last folder of the list and at least
one record was written for it. -/
def folderLoopGo (env : Env) (n : Nat) :
    List String → Nat → LoopState → LoopState
  | [], _, st => st
  | folder :: rest, folder_iteration_count, st =>
    let folder_iteration_count := folder_iteration_count + 1
    if folder == "" || folder == "/" then
      folderLoopGo env n rest folder_iteration_count st
    else
      let folder := folder ++ "/"
      let reports := env.reports folder
      let folder_name := folderNameFor folder
      let pair := reportLoopGo folder_name reports 0 []
      let tokens := st.tokens ++ pair.1
      let tokens :=
        if folder_iteration_count < n ∧ pair.2 > 0 then tokens ++ [Token.comma]
        else tokens
      folderLoopGo env n rest folder_iteration_count
        { tokens := tokens, requests := st.requests ++ [folder] }

/-- The full run of the output-writing part of main: write the opening
bracket, run the folder loop over the processed folders, write the closing
bracket. -/
def mainRun (env : Env) : LoopState :=
  let folders := processFolders env.folders
  folderLoopGo env folders.length folders 0 { tokens := [], requests := [] }

/-- The tokens written to the output file by a run, brackets included. -/
def mainTokens (env : Env) : List Token :=
  Token.lb :: ((mainRun env).tokens ++ [Token.rb])

/-- The folder urls for which a report request was issued during a run. -/
def mainRequests (env : Env) : List String := (mainRun env).requests

/-- The records among a token list, in order. -/
def recordsOf : List Token → List OutRecord
  | [] => []
  | Token.record r :: rest => r :: recordsOf rest
  | _ :: rest => recordsOf rest

/-- Tail of a comma-separated rendering: every record preceded by a comma. -/
def sepTail : List OutRecord → List Token
  | [] => []
  | r :: rest => Token.comma :: Token.record r :: sepTail rest

/-- Comma-separated rendering of a record list: commas exactly between
consecutive records, none before the first, none after the last. -/
def sepTokens : List OutRecord → List Token
  | [] => []
  | r :: rest => Token.record r :: sepTail rest

/-- The tokens the report loop appends when starting from a given count: only
when the count is still zero does the first written record go without a
comma. -/
def joinFrom (report_iteration_count : Nat) (recs : List OutRecord) :
    List Token :=
  if report_iteration_count == 0 then sepTokens recs else sepTail recs

/-- The records a folder contributes to the output: none for the skipped root
entries, otherwise the lines of its reports. -/
def emittedRecords (env : Env) (folder : String) : List OutRecord :=
  if folder == "" || folder == "/" then []
  else linesOf (folderNameFor (folder ++ "/")) (env.reports (folder ++ "/"))

/-- All records of a run, folder by folder in enumeration order. -/
def allRecords (env : Env) : List String → List OutRecord
  | [] => []
  | folder :: rest => emittedRecords env folder ++ allRecords env rest

/-- Compositional form of the token stream between the brackets. -/
def bodyTokens (env : Env) (n : Nat) : List String → Nat → List Token
  | [], _ => []
  | folder :: rest, idx =>
    (if folder == "" || folder == "/" then []
     else
       sepTokens (emittedRecords env folder) ++
         (if idx + 1 < n ∧ (emittedRecords env folder).length > 0 then
            [Token.comma]
          else [])) ++
      bodyTokens env n rest (idx + 1)

/-- The report requests issued by the folder loop, in order. -/
def requestsOf : List String → List String
  | [] => []
  | folder :: rest =>
    (if folder == "" || folder == "/" then [] else [folder ++ "/"]) ++
      requestsOf rest

/-- The capability-flag derivation described by the specification sentence of
C5: scan the extensions array for entries whose typeName matches the tag; when
a matching entry exists the flag is the enabled value of the first match,
otherwise it stays "NA". -/
def specFlag (extensions : List Extension) (tag : String) : String :=
  match extensions.filter (fun entity => entity.typeName == tag) with
  | [] => "NA"
  | entity :: _ => entity.enabled

/-- A concrete geometry-service report used in concrete runs. -/
def reportGeom : Report :=
  { type_ := "GeometryServer"
    serviceName := "Svc"
    realTimeState := "STARTED"
    isCached := "false"
    extensions := []
    layersResponse := [] }

/-- A concrete report with a service type the script does not recognize. -/
def reportUnknown : Report :=
  { type_ := "VectorTileServer"
    serviceName := "Tiles"
    realTimeState := "STARTED"
    isCached := "false"
    extensions := []
    layersResponse := [] }

/-- A concrete run with one folder holding one recognized service. -/
def envOneFolder : Env :=
  { folders := ["A"]
    reports := fun s => if s == "A/" then [reportGeom] else [] }

/-- A concrete run whose last folder writes no record while an earlier folder
does: folder A holds a recognized service, folder B only an unrecognized
one. -/
def envTrailingComma : Env :=
  { folders := ["A", "B"]
    reports := fun s =>
      if s == "A/" then [reportGeom]
      else if s == "B/" then [reportUnknown] else [] }

/-- A concrete run with one folder holding one unrecognized service. -/
def envUnknownType : Env :=
  { folders := ["A"]
    reports := fun s => if s == "A/" then [reportUnknown] else [] }

/-- A concrete run where the server exposes a folder literally named Root. -/
def envRootFolder : Env :=
  { folders := ["Root"]
    reports := fun s => if s == "Root/" then [reportGeom] else [] }

end ArchiveScript

namespace MachineTests

inductive MTResult where
  | exitProcess
  | value (v : String)
  | runsForever
deriving DecidableEq

/-- Models get_value_from_response of MachineTests_TokenMismatchIssue.py: a
while True loop that re-issues the request after a KeyError or a TypeError
(continue) and exits the process on transport, html and json decoding
failures.  The successive responses of the repeated posts are modeled as a
list; exhausting the list means the loop is still re-requesting, as the real
loop never stops retrying on its own. -/
def get_value_from_response (search_key : String) :
    List ArchiveScript.Response → MTResult
  | [] => .runsForever
  | resp :: rest =>
    match resp with
    | .transportError => .exitProcess
    | .htmlContent => .exitProcess
    | .decodeError => .exitProcess
    | .nonDict => get_value_from_response search_key rest
    | .dict lookup =>
      match lookup search_key with
      | none => get_value_from_response search_key rest
      | some value => .value value

/-- Environment of MachineTests_TokenMismatchIssue.py: the configured machine
names and, for each machine, the token it mints and the folders list it
reports (both assumed delivered successfully, as the script only proceeds on
success). -/
structure MTEnv where
  machines : List String
  tokenOf : String → String
  foldersOf : String → List String

/-- Models the Machine_Objects class (the url fields are determined by the
machine name and are not repeated here). -/
structure Machine_Objects where
  machine_name : String
  token : String
  folders_list : List String
deriving DecidableEq

/-- One admin REST request issued by the script, identified by target machine,
endpoint kind and accompanying parameters. -/
inductive MTRequest where
  | generateToken (machine : String)
  | folders (machine : String) (token : String)
  | report (machine : String) (folder : String) (token : String)
deriving DecidableEq

/-- Chronological request list of the first loop of main: for each configured
machine, a generateToken request followed by a folders request made with the
token just minted by that same machine. -/
def phase1Aux (env : MTEnv) : List String → List MTRequest
  | [] => []
  | machine :: rest =>
    MTRequest.generateToken machine ::
      MTRequest.folders machine (env.tokenOf machine) :: phase1Aux env rest

def phase1Requests (env : MTEnv) : List MTRequest := phase1Aux env env.machines

/-- The machine_objects_list built by the first loop of main; the folders list
goes through the same remove / append-root / sort processing as in the archive
script. -/
def buildMachineObjects (env : MTEnv) : List Machine_Objects :=
  env.machines.map (fun machine =>
    { machine_name := machine
      token := env.tokenOf machine
      folders_list := ArchiveScript.processFolders (env.foldersOf machine) })

/-- The per-folder report requests sent to one inner machine with the token of
the outer (focus) machine; a non-root folder gets a trailing slash first. -/
def reportRequestsForMachine (focus_token : String) (inner : Machine_Objects) :
    List MTRequest :=
  inner.folders_list.map (fun folder =>
    MTRequest.report inner.machine_name
      (if folder != "" then folder ++ "/" else folder) focus_token)

/-- The inner loop of the cross test: with one focus token, visit every machine
object and request each of its per-folder report endpoints. -/
def crossRequestsForToken (focus_token : String) :
    List Machine_Objects → List MTRequest
  | [] => []
  | inner :: rest =>
    reportRequestsForMachine focus_token inner ++
      crossRequestsForToken focus_token rest

/-- The outer loop of the cross test: every machine object in turn becomes the
focus whose token is used against every machine object. -/
def crossRequests (all : List Machine_Objects) :
    List Machine_Objects → List MTRequest
  | [] => []
  | outer :: rest =>
    crossRequestsForToken outer.token all ++ crossRequests all rest

/-- All requests of main in chronological order: first the token/folder phase,
then the cross-request phase. -/
def mtAllRequests (env : MTEnv) : List MTRequest :=
  phase1Requests env ++
    crossRequests (buildMachineObjects env) (buildMachineObjects env)

/-- The machines for which a generateToken request occurs, in request order. -/
def mintedMachines : List MTRequest → List String
  | [] => []
  | MTRequest.generateToken machine :: rest => machine :: mintedMachines rest
  | _ :: rest => mintedMachines rest

end MachineTests

namespace ArchiveScript

theorem charListLeB_total (as : List Char) :
    ∀ bs, charListLeB as bs = true ∨ charListLeB bs as = true := by
  induction as with
  | nil => intro bs; left; rfl
  | cons a as ih =>
    intro bs
    cases bs with
    | nil => right; rfl
    | cons b bs =>
      by_cases h1 : a.toNat < b.toNat
      · left; simp [charListLeB, h1]
      · by_cases h2 : b.toNat < a.toNat
        · right; simp [charListLeB, h2]
        · rcases ih bs with h | h
          · left; simp [charListLeB, h1, h2, h]
          · right; simp [charListLeB, h1, h2, h]

theorem charListLeB_trans (as : List Char) :
    ∀ bs cs, charListLeB as bs = true → charListLeB bs cs = true →
      charListLeB as cs = true := by
  induction as with
  | nil => intro bs cs _ _; rfl
  | cons a as ih =>
    intro bs cs h1 h2
    cases bs with
    | nil => simp [charListLeB] at h1
    | cons b bs =>
      cases cs with
      | nil => simp [charListLeB] at h2
      | cons c cs =>
        simp only [charListLeB] at h1 h2 ⊢
        by_cases hab : a.toNat < b.toNat <;> by_cases hba : b.toNat < a.toNat <;>
          by_cases hbc : b.toNat < c.toNat <;> by_cases hcb : c.toNat < b.toNat <;>
          by_cases hac : a.toNat < c.toNat <;> by_cases hca : c.toNat < a.toNat <;>
          simp_all <;>
          first
          | omega
          | exact Or.inr (ih bs cs h1 h2)

instance : IsTotal String strLe := ⟨fun s t => charListLeB_total s.data t.data⟩

instance : IsTrans String strLe :=
  ⟨fun s t u h1 h2 => charListLeB_trans s.data t.data u.data h1 h2⟩

theorem mem_of_mem_dedupStrAux (x : String) :
    ∀ (l seen : List String), x ∈ dedupStrAux seen l → x ∈ l := by
  intro l
  induction l with
  | nil => intro seen h; simp [dedupStrAux] at h
  | cons s rest ih =>
    intro seen h
    by_cases hs : seen.contains s
    · simp only [dedupStrAux, if_pos hs] at h
      exact List.mem_cons_of_mem s (ih seen h)
    · simp only [dedupStrAux, if_neg hs, List.mem_cons] at h
      rcases h with h | h
      · exact h ▸ List.mem_cons_self s rest
      · exact List.mem_cons_of_mem s (ih (s :: seen) h)

end ArchiveScript

namespace MachineTests

theorem mintedMachines_append (a b : List MTRequest) :
    mintedMachines (a ++ b) = mintedMachines a ++ mintedMachines b := by
  induction a with
  | nil => rfl
  | cons r rest ih => cases r <;> simp [mintedMachines, ih]

theorem mintedMachines_phase1Aux (env : MTEnv) :
    ∀ machines, mintedMachines (phase1Aux env machines) = machines := by
  intro machines
  induction machines with
  | nil => rfl
  | cons m rest ih => simp [phase1Aux, mintedMachines, ih]

theorem mintedMachines_reportRequests (focus_token : String)
    (inner : Machine_Objects) :
    mintedMachines (reportRequestsForMachine focus_token inner) = [] := by
  unfold reportRequestsForMachine
  induction inner.folders_list with
  | nil => rfl
  | cons f rest ih => simpa [mintedMachines] using ih

theorem mintedMachines_crossForToken (focus_token : String) :
    ∀ objs, mintedMachines (crossRequestsForToken focus_token objs) = [] := by
  intro objs
  induction objs with
  | nil => rfl
  | cons inner rest ih =>
    simp [crossRequestsForToken, mintedMachines_append,
      mintedMachines_reportRequests, ih]

theorem mintedMachines_crossRequests (all : List Machine_Objects) :
    ∀ objs, mintedMachines (crossRequests all objs) = [] := by
  intro objs
  induction objs with
  | nil => rfl
  | cons outer rest ih =>
    simp [crossRequests, mintedMachines_append,
      mintedMachines_crossForToken, ih]

theorem mem_crossRequestsForToken (focus_token : String) (x : MTRequest) :
    ∀ objs inner, inner ∈ objs →
      x ∈ reportRequestsForMachine focus_token inner →
      x ∈ crossRequestsForToken focus_token objs := by
  intro objs
  induction objs with
  | nil => intro inner h; simp at h
  | cons o rest ih =>
    intro inner h hx
    rcases List.mem_cons.mp h with h | h
    · exact List.mem_append_left _ (h ▸ hx)
    · exact List.mem_append_right _ (ih inner h hx)

theorem mem_crossRequests (all : List Machine_Objects) (x : MTRequest) :
    ∀ objs outer, outer ∈ objs →
      x ∈ crossRequestsForToken outer.token all →
      x ∈ crossRequests all objs := by
  intro objs
  induction objs with
  | nil => intro outer h; simp at h
  | cons o rest ih =>
    intro outer h hx
    rcases List.mem_cons.mp h with h | h
    · exact List.mem_append_left _ (h ▸ hx)
    · exact List.mem_append_right _ (ih outer h hx)

end MachineTests

/-- C7: the diagnostic script first mints one admin token per configured
machine (the generateToken requests of the first phase list exactly the
configured machines, and no token is minted during the cross phase), and the
whole run is the first phase followed by the cross phase; then for every
machine A and every other machine B, each of the per-folder report endpoints
of B is requested with the token minted by A. -/
theorem c7_cross_requests (env : MachineTests.MTEnv) :
    MachineTests.mintedMachines (MachineTests.phase1Requests env) = env.machines ∧
    MachineTests.mintedMachines
      (MachineTests.crossRequests (MachineTests.buildMachineObjects env)
        (MachineTests.buildMachineObjects env)) = [] ∧
    MachineTests.mtAllRequests env =
      MachineTests.phase1Requests env ++
        MachineTests.crossRequests (MachineTests.buildMachineObjects env)
          (MachineTests.buildMachineObjects env) ∧
    ∀ a ∈ env.machines, ∀ b ∈ env.machines, a ≠ b →
      ∀ folder ∈ ArchiveScript.processFolders (env.foldersOf b),
        MachineTests.MTRequest.report b
            (if folder != "" then folder ++ "/" else folder) (env.tokenOf a) ∈
          MachineTests.mtAllRequests env := by
  refine ⟨MachineTests.mintedMachines_phase1Aux env env.machines,
    MachineTests.mintedMachines_crossRequests _ _, rfl, ?_⟩
  intro a ha b hb _ folder hf
  have hbObj :
      ({ machine_name := b, token := env.tokenOf b,
         folders_list := ArchiveScript.processFolders (env.foldersOf b) } :
        MachineTests.Machine_Objects) ∈ MachineTests.buildMachineObjects env :=
    List.mem_map_of_mem _ hb
  have haObj :
      ({ machine_name := a, token := env.tokenOf a,
         folders_list := ArchiveScript.processFolders (env.foldersOf a) } :
        MachineTests.Machine_Objects) ∈ MachineTests.buildMachineObjects env :=
    List.mem_map_of_mem _ ha
  have hreq :
      MachineTests.MTRequest.report b
          (if folder != "" then folder ++ "/" else folder) (env.tokenOf a) ∈
        MachineTests.reportRequestsForMachine (env.tokenOf a)
          { machine_name := b, token := env.tokenOf b,
            folders_list := ArchiveScript.processFolders (env.foldersOf b) } :=
    List.mem_map_of_mem _ hf
  have hcrossTok := MachineTests.mem_crossRequestsForToken (env.tokenOf a) _
    (MachineTests.buildMachineObjects env) _ hbObj hreq
  have hcross := MachineTests.mem_crossRequests
    (MachineTests.buildMachineObjects env) _
    (MachineTests.buildMachineObjects env) _ haObj hcrossTok
  exact List.mem_append_right _ hcross

/-- C7 witness: a concrete two-machine environment in which the report endpoint
of machine m2 for folder F is requested with the token minted by m1. -/
theorem c7_cross_requests_witness :
    MachineTests.MTRequest.report "m2" "F/" "tok-m1" ∈
      MachineTests.mtAllRequests
        { machines := ["m1", "m2"],
          tokenOf := fun m => "tok-" ++ m,
          foldersOf := fun _ => ["F"] } := by
  have h := (c7_cross_requests
    { machines := ["m1", "m2"],
      tokenOf := fun m => "tok-" ++ m,
      foldersOf := fun _ => ["F"] }).2.2.2
    "m1" (by decide) "m2" (by decide) (by decide) "F" (by decide)
  simpa using h

/-- C2 counterexample: in the diagnostic script, a key-lookup failure does not
exit the process.  With a first response whose json lacks the searched key and
a second response that has it, the while loop retries and returns the value of
the second response. -/
theorem c2_counterexample :
    MachineTests.get_value_from_response "reports"
        [ArchiveScript.Response.dict (fun _ => none),
         ArchiveScript.Response.dict
           (fun k => if k == "reports" then some "R" else none)] =
      MachineTests.MTResult.value "R" ∧
    MachineTests.get_value_from_response "reports"
        [ArchiveScript.Response.dict (fun _ => none),
         ArchiveScript.Response.dict
           (fun k => if k == "reports" then some "R" else none)] ≠
      MachineTests.MTResult.exitProcess := by
  exact ⟨rfl, by decide⟩

/-- C2 amended: in archiveDataToJSON_MOD.py every transport, html, json-decode,
key-lookup or type failure of a request exits the process with no retry; in
MachineTests_TokenMismatchIssue.py transport, html and json-decode failures
exit the process, but a key-lookup failure (KeyError) or a TypeError makes the
while loop re-issue the request and continue with the next response. -/
theorem c2_amended :
    (∀ search_key : String,
      ArchiveScript.get_value_from_response ArchiveScript.Response.transportError
          search_key = ArchiveScript.FetchResult.exitProcess ∧
      ArchiveScript.get_value_from_response ArchiveScript.Response.htmlContent
          search_key = ArchiveScript.FetchResult.exitProcess ∧
      ArchiveScript.get_value_from_response ArchiveScript.Response.decodeError
          search_key = ArchiveScript.FetchResult.exitProcess ∧
      ArchiveScript.get_value_from_response ArchiveScript.Response.nonDict
          search_key = ArchiveScript.FetchResult.exitProcess ∧
      ∀ lookup, lookup search_key = none →
        ArchiveScript.get_value_from_response (ArchiveScript.Response.dict lookup)
            search_key = ArchiveScript.FetchResult.exitProcess) ∧
    (∀ (search_key : String) (rest : List ArchiveScript.Response),
      MachineTests.get_value_from_response search_key
          (ArchiveScript.Response.transportError :: rest) =
        MachineTests.MTResult.exitProcess ∧
      MachineTests.get_value_from_response search_key
          (ArchiveScript.Response.htmlContent :: rest) =
        MachineTests.MTResult.exitProcess ∧
      MachineTests.get_value_from_response search_key
          (ArchiveScript.Response.decodeError :: rest) =
        MachineTests.MTResult.exitProcess ∧
      MachineTests.get_value_from_response search_key
          (ArchiveScript.Response.nonDict :: rest) =
        MachineTests.get_value_from_response search_key rest ∧
      ∀ lookup, lookup search_key = none →
        MachineTests.get_value_from_response search_key
            (ArchiveScript.Response.dict lookup :: rest) =
          MachineTests.get_value_from_response search_key rest) := by
  constructor
  · intro search_key
    refine ⟨rfl, rfl, rfl, rfl, ?_⟩
    intro lookup h
    simp [ArchiveScript.get_value_from_response, h]
  · intro search_key rest
    refine ⟨rfl, rfl, rfl, rfl, ?_⟩
    intro lookup h
    simp [MachineTests.get_value_from_response, h]

/-- C2 witness: concrete instance of the amended statement, a key-lookup
failure in the archive script exits the process. -/
theorem c2_amended_witness :
    ArchiveScript.get_value_from_response
        (ArchiveScript.Response.dict (fun _ => none)) "token" =
      ArchiveScript.FetchResult.exitProcess :=
  (c2_amended.1 "token").2.2.2.2 (fun _ => none) rfl

/-- C8: create_random_int returns, for every upper bound of at least 1, an
integer between 0 and upper_integer - 1 inclusive whenever random.randint
meets its contract; with the four-entry machine table the selected index is
always one of the keys 0..3, and for every key some admissible random source
selects exactly that key. -/
theorem c8_random_machine_selection :
    (∀ randint, ArchiveScript.ValidRandint randint →
      ∀ upper_integer : Int, 1 ≤ upper_integer →
        0 ≤ ArchiveScript.create_random_int randint upper_integer ∧
        ArchiveScript.create_random_int randint upper_integer ≤
          upper_integer - 1) ∧
    (∀ randint, ArchiveScript.ValidRandint randint →
      ArchiveScript.create_random_int randint 4 ∈
        ArchiveScript.server_machine_names_keys) ∧
    (∀ i ∈ ArchiveScript.server_machine_names_keys, ∃ randint,
      ArchiveScript.ValidRandint randint ∧
        ArchiveScript.create_random_int randint 4 = i) := by
  have hrange : ∀ randint, ArchiveScript.ValidRandint randint →
      ∀ upper_integer : Int, 1 ≤ upper_integer →
        0 ≤ ArchiveScript.create_random_int randint upper_integer ∧
        ArchiveScript.create_random_int randint upper_integer ≤
          upper_integer - 1 := by
    intro randint hvalid upper_integer hupper
    have h := hvalid 0 (upper_integer - 1) (by omega)
    exact ⟨h.1, h.2⟩
  refine ⟨hrange, ?_, ?_⟩
  · intro randint hvalid
    have h := hrange randint hvalid 4 (by omega)
    have : ArchiveScript.create_random_int randint 4 = 0 ∨
        ArchiveScript.create_random_int randint 4 = 1 ∨
        ArchiveScript.create_random_int randint 4 = 2 ∨
        ArchiveScript.create_random_int randint 4 = 3 := by omega
    simpa [ArchiveScript.server_machine_names_keys] using this
  · intro i hi
    refine ⟨fun a b => max a (min b i), ?_, ?_⟩
    · intro a b hab
      refine ⟨le_max_left _ _, max_le hab (le_trans (min_le_left _ _) le_rfl)⟩
    · have hi4 : i = 0 ∨ i = 1 ∨ i = 2 ∨ i = 3 := by
        simpa [ArchiveScript.server_machine_names_keys] using hi
      rcases hi4 with rfl | rfl | rfl | rfl <;> rfl

/-- C8 witness: a concrete admissible random source (always answering the lower
bound) selects index 0, which is a key of the machine table. -/
theorem c8_random_machine_selection_witness :
    0 ≤ ArchiveScript.create_random_int (fun a _ => a) 4 ∧
    ArchiveScript.create_random_int (fun a _ => a) 4 ≤ 4 - 1 :=
  c8_random_machine_selection.1 (fun a _ => a)
    (fun a b hab => ⟨le_refl a, hab⟩) 4 (by omega)

/-- C10: create_params_for_request dispatches on the value of its argument:
None gives the plain json parameters, the literal string getToken gives the
credential parameters, and any other string v gives the token parameters; in
particular a minted token whose value is exactly getToken is answered with
credential parameters instead of token parameters. -/
theorem c10_params_dispatch (username password : String) :
    ArchiveScript.create_params_for_request username password none =
      [("f", "json")] ∧
    ArchiveScript.create_params_for_request username password (some "getToken") =
      [("username", username), ("password", password),
       ("client", "requestip"), ("f", "json")] ∧
    (∀ v : String, v ≠ "getToken" →
      ArchiveScript.create_params_for_request username password (some v) =
        [("token", v), ("f", "json")]) ∧
    ArchiveScript.create_params_for_request username password (some "getToken") ≠
      [("token", "getToken"), ("f", "json")] := by
  refine ⟨rfl, by simp [ArchiveScript.create_params_for_request], ?_, ?_⟩
  · intro v hv
    simp [ArchiveScript.create_params_for_request, hv]
  · simp [ArchiveScript.create_params_for_request]

/-- C10 witness: concrete instance, a non-getToken token string is passed as
the token parameter. -/
theorem c10_params_dispatch_witness :
    ArchiveScript.create_params_for_request "u" "p" (some "abc123") =
      [("token", "abc123"), ("f", "json")] :=
  (c10_params_dispatch "u" "p").2.2.1 "abc123" (by decide)

namespace ArchiveScript

theorem recordsOf_nil : recordsOf [] = [] := rfl

theorem recordsOf_cons_lb (rest : List Token) :
    recordsOf (Token.lb :: rest) = recordsOf rest := rfl

theorem recordsOf_cons_rb (rest : List Token) :
    recordsOf (Token.rb :: rest) = recordsOf rest := rfl

theorem recordsOf_cons_comma (rest : List Token) :
    recordsOf (Token.comma :: rest) = recordsOf rest := rfl

theorem recordsOf_cons_record (r : OutRecord) (rest : List Token) :
    recordsOf (Token.record r :: rest) = r :: recordsOf rest := rfl

theorem recordsOf_append (a b : List Token) :
    recordsOf (a ++ b) = recordsOf a ++ recordsOf b := by
  induction a with
  | nil => rfl
  | cons t rest ih =>
    cases t <;>
      simp [recordsOf_cons_lb, recordsOf_cons_rb, recordsOf_cons_comma,
        recordsOf_cons_record, ih]

theorem recordsOf_sepTail (l : List OutRecord) : recordsOf (sepTail l) = l := by
  induction l with
  | nil => rfl
  | cons r rest ih =>
    simp [sepTail, recordsOf_cons_comma, recordsOf_cons_record, ih]

theorem recordsOf_sepTokens (l : List OutRecord) :
    recordsOf (sepTokens l) = l := by
  cases l with
  | nil => rfl
  | cons r rest => simp [sepTokens, recordsOf_cons_record, recordsOf_sepTail]

theorem sepTail_append (a b : List OutRecord) :
    sepTail (a ++ b) = sepTail a ++ sepTail b := by
  induction a with
  | nil => rfl
  | cons r rest ih => simp [sepTail, ih]

theorem comma_sepTokens (l : List OutRecord) (h : l ≠ []) :
    Token.comma :: sepTokens l = sepTail l := by
  cases l with
  | nil => exact absurd rfl h
  | cons r rest => rfl

theorem sepTokens_append (a b : List OutRecord) (ha : a ≠ []) :
    sepTokens (a ++ b) = sepTokens a ++ sepTail b := by
  cases a with
  | nil => exact absurd rfl ha
  | cons r rest => simp [sepTokens, sepTail_append]

theorem reportLoopGo_eq (folder_name : String) :
    ∀ (reports : List Report) (count : Nat) (acc : List Token),
      reportLoopGo folder_name reports count acc =
        (acc ++ joinFrom count (linesOf folder_name reports),
         count + (linesOf folder_name reports).length) := by
  intro reports
  induction reports with
  | nil =>
    intro count acc
    simp [reportLoopGo, linesOf, joinFrom, sepTokens, sepTail]
  | cons report rest ih =>
    intro count acc
    cases hline : (processReport report folder_name).line with
    | none =>
      simp only [reportLoopGo, hline, linesOf]
      exact ih count acc
    | some r =>
      simp only [reportLoopGo, hline, linesOf]
      rw [ih]
      simp only [Prod.mk.injEq]
      refine ⟨?_, by simp [List.length_cons]; omega⟩
      by_cases hc : count = 0
      · subst hc
        simp [joinFrom, sepTokens, sepTail]
      · have hc2 : (count == 0) = false := by simpa using hc
        simp [joinFrom, hc2, sepTail]

theorem folderLoopGo_eq (env : Env) (n : Nat) :
    ∀ (fs : List String) (idx : Nat) (st : LoopState),
      folderLoopGo env n fs idx st =
        { tokens := st.tokens ++ bodyTokens env n fs idx,
          requests := st.requests ++ requestsOf fs } := by
  intro fs
  induction fs with
  | nil => intro idx st; simp [folderLoopGo, bodyTokens, requestsOf]
  | cons folder rest ih =>
    intro idx st
    by_cases hskip : (folder == "" || folder == "/") = true
    · simp only [folderLoopGo, hskip, if_true]
      rw [ih]
      simp [bodyTokens, requestsOf, hskip]
    · have hskip2 : (folder == "" || folder == "/") = false := by
        simpa using hskip
      simp only [folderLoopGo, hskip2, Bool.false_eq_true, if_false]
      rw [reportLoopGo_eq, ih]
      simp only [bodyTokens, requestsOf, hskip2, Bool.false_eq_true, if_false]
      have hrecs :
          linesOf (folderNameFor (folder ++ "/")) (env.reports (folder ++ "/")) =
            emittedRecords env folder := by
        simp [emittedRecords, hskip2]
      simp only [LoopState.mk.injEq]
      constructor
      · rw [hrecs]
        by_cases hgap : idx + 1 < n ∧ (emittedRecords env folder).length > 0
      -- the comma after the folder appears exactly under the gap condition
        · simp [hgap, joinFrom, List.append_assoc]
        · simp [hgap, joinFrom, List.append_assoc]
      · simp [List.append_assoc]

theorem mainRun_eq (env : Env) :
    mainRun env =
      { tokens := bodyTokens env (processFolders env.folders).length
          (processFolders env.folders) 0,
        requests := requestsOf (processFolders env.folders) } := by
  unfold mainRun
  rw [folderLoopGo_eq]
  simp

theorem bodyTokens_cons (env : Env) (n : Nat) (folder : String)
    (rest : List String) (idx : Nat) :
    bodyTokens env n (folder :: rest) idx =
      (if (folder == "" || folder == "/") = true then []
       else
         sepTokens (emittedRecords env folder) ++
           (if idx + 1 < n ∧ (emittedRecords env folder).length > 0 then
              [Token.comma]
            else [])) ++
        bodyTokens env n rest (idx + 1) := rfl

theorem allRecords_cons (env : Env) (folder : String) (rest : List String) :
    allRecords env (folder :: rest) =
      emittedRecords env folder ++ allRecords env rest := rfl

theorem recordsOf_bodyTokens (env : Env) (n : Nat) :
    ∀ (fs : List String) (idx : Nat),
      recordsOf (bodyTokens env n fs idx) = allRecords env fs := by
  intro fs
  induction fs with
  | nil => intro idx; rfl
  | cons folder rest ih =>
    intro idx
    by_cases hskip : (folder == "" || folder == "/") = true
    · have hrecs : emittedRecords env folder = [] := by
        simp [emittedRecords, hskip]
      simp [bodyTokens, allRecords, hskip, recordsOf_append, ih, hrecs]
    · have hskip2 : (folder == "" || folder == "/") = false := by
        simpa using hskip
      by_cases hgap : idx + 1 < n ∧ (emittedRecords env folder).length > 0
      · simp [bodyTokens, allRecords, hskip2, hgap, recordsOf_append,
          recordsOf_sepTokens, recordsOf_cons_comma, ih]
      · simp [bodyTokens, allRecords, hskip2, hgap, recordsOf_append,
          recordsOf_sepTokens, ih]

theorem mainTokens_records (env : Env) :
    recordsOf (mainTokens env) = allRecords env (processFolders env.folders) := by
  unfold mainTokens
  rw [mainRun_eq]
  simp [recordsOf_cons_lb, recordsOf_append, recordsOf_cons_rb, recordsOf_nil,
    recordsOf_bodyTokens]

theorem mainRequests_eq (env : Env) :
    mainRequests env = requestsOf (processFolders env.folders) := by
  unfold mainRequests
  rw [mainRun_eq]

theorem mem_of_getLastQ {α : Type _} :
    ∀ (l : List α) (a : α), l.getLast? = some a → a ∈ l := by
  intro l
  induction l with
  | nil => intro a h; simp at h
  | cons x rest ih =>
    intro a h
    cases rest with
    | nil =>
      simp only [List.getLast?_singleton, Option.some.injEq] at h
      simp [h]
    | cons y ys =>
      rw [List.getLast?_cons_cons] at h
      exact List.mem_cons_of_mem x (ih a h)

theorem allRecords_eq_nil (env : Env) :
    ∀ fs, (∀ f ∈ fs, emittedRecords env f = []) → allRecords env fs = [] := by
  intro fs
  induction fs with
  | nil => intro _; rfl
  | cons folder rest ih =>
    intro h
    have h1 := h folder (List.mem_cons_self folder rest)
    have h2 := ih (fun f hf => h f (List.mem_cons_of_mem folder hf))
    simp [allRecords, h1, h2]

theorem allRecords_ne_nil (env : Env) :
    ∀ fs g, g ∈ fs → emittedRecords env g ≠ [] → allRecords env fs ≠ [] := by
  intro fs
  induction fs with
  | nil => intro g h; simp at h
  | cons folder rest ih =>
    intro g hg hne
    rcases List.mem_cons.mp hg with h | h
    · subst h
      simp [allRecords, List.append_eq_nil]
      intro hcon
      exact absurd hcon hne
    · simp [allRecords, List.append_eq_nil]
      intro _ hcon
      exact absurd hcon (ih g h hne)

theorem bodyTokens_all_empty (env : Env) (n : Nat) :
    ∀ fs idx, (∀ f ∈ fs, emittedRecords env f = []) →
      bodyTokens env n fs idx = [] := by
  intro fs
  induction fs with
  | nil => intro idx _; rfl
  | cons folder rest ih =>
    intro idx h
    have h1 := h folder (List.mem_cons_self folder rest)
    have h2 := ih (idx + 1) (fun f hf => h f (List.mem_cons_of_mem folder hf))
    by_cases hskip : (folder == "" || folder == "/") = true
    · simp [bodyTokens, hskip, h2]
    · have hskip2 : (folder == "" || folder == "/") = false := by
        simpa using hskip
      simp [bodyTokens, hskip2, h1, h2, sepTokens]

theorem bodyTokens_last_producer (env : Env) (n : Nat) :
    ∀ fs idx g, idx + fs.length = n → fs.getLast? = some g →
      emittedRecords env g ≠ [] →
      bodyTokens env n fs idx = sepTokens (allRecords env fs) := by
  intro fs
  induction fs with
  | nil => intro idx g _ h; simp at h
  | cons folder rest ih =>
    intro idx g hlen hlast hne
    cases rest with
    | nil =>
      simp only [List.getLast?_singleton, Option.some.injEq] at hlast
      subst hlast
      have hskipP : ¬ ((folder == "" || folder == "/") = true) := by
        intro hb
        exact hne (by simp [emittedRecords, hb])
      have hn : ¬ (idx + 1 < n) := by
        simp at hlen
        omega
      have hgapP : ¬ (idx + 1 < n ∧ (emittedRecords env folder).length > 0) :=
        fun hcon => hn hcon.1
      rw [bodyTokens_cons, if_neg hskipP, if_neg hgapP, allRecords_cons]
      simp [bodyTokens, allRecords]
    | cons f2 rest2 =>
      rw [List.getLast?_cons_cons] at hlast
      have hglast : g ∈ f2 :: rest2 := mem_of_getLastQ _ g hlast
      have hlen2 : (idx + 1) + (f2 :: rest2).length = n := by
        simp at hlen ⊢
        omega
      have htail := ih (idx + 1) g hlen2 hlast hne
      rw [bodyTokens_cons, htail, allRecords_cons env folder (f2 :: rest2)]
      by_cases hskip : (folder == "" || folder == "/") = true
      · have hrecs : emittedRecords env folder = [] := by
          simp [emittedRecords, hskip]
        rw [if_pos hskip, hrecs]
        simp
      · have hlt : idx + 1 < n := by
          simp at hlen2
          omega
        by_cases hcur : emittedRecords env folder = []
        · have hgapP : ¬ (idx + 1 < n ∧ (emittedRecords env folder).length > 0) := by
            simp [hcur]
          rw [if_neg hskip, if_neg hgapP, hcur]
          simp [sepTokens]
        · have hgap : idx + 1 < n ∧ (emittedRecords env folder).length > 0 := by
            refine ⟨hlt, ?_⟩
            cases hrec : emittedRecords env folder with
            | nil => exact absurd hrec hcur
            | cons a b => simp [hrec]
          have htailrecs : allRecords env (f2 :: rest2) ≠ [] :=
            allRecords_ne_nil env (f2 :: rest2) g hglast hne
          rw [if_neg hskip, if_pos hgap]
          rw [sepTokens_append _ _ hcur, ← comma_sepTokens _ htailrecs]
          simp

theorem applyMapServerExtensions_folder (report : Report) (obj : ReportObject) :
    (applyMapServerExtensions report obj).folder = obj.folder := by
  unfold applyMapServerExtensions
  split <;> rfl

theorem applyMapServerExtensions_type (report : Report) (obj : ReportObject) :
    (applyMapServerExtensions report obj).type_ = obj.type_ := by
  unfold applyMapServerExtensions
  split <;> rfl

theorem applyMapServerExtensions_service_name (report : Report)
    (obj : ReportObject) :
    (applyMapServerExtensions report obj).service_name = obj.service_name := by
  unfold applyMapServerExtensions
  split <;> rfl

theorem applyMapServerExtensions_real_time_status (report : Report)
    (obj : ReportObject) :
    (applyMapServerExtensions report obj).real_time_status =
      obj.real_time_status := by
  unfold applyMapServerExtensions
  split <;> rfl

theorem applyMapServerExtensions_cached (report : Report) (obj : ReportObject) :
    (applyMapServerExtensions report obj).cached = obj.cached := by
  unfold applyMapServerExtensions
  split <;> rfl

theorem applyMapServerExtensions_layers (report : Report) (obj : ReportObject) :
    (applyMapServerExtensions report obj).layers = obj.layers := by
  unfold applyMapServerExtensions
  split <;> rfl

theorem flagFromProps_na_eq_specFlag (extensions : List Extension)
    (tag : String) :
    flagFromProps (extract_extension_properties extensions tag) "NA" =
      specFlag extensions tag := by
  unfold specFlag
  cases h : extensions.filter (fun entity => entity.typeName == tag) with
  | nil => simp [extract_extension_properties, h, flagFromProps]
  | cons e rest => simp [extract_extension_properties, h, flagFromProps]

theorem applyMapServerExtensions_flags (report : Report) (obj : ReportObject)
    (hfs : obj.feature_service = "NA") (hk : obj.kml = "NA")
    (hw : obj.wms = "NA") (hf : obj.wfs = "NA") :
    (applyMapServerExtensions report obj).feature_service =
        specFlag report.extensions "FeatureServer" ∧
    (applyMapServerExtensions report obj).kml =
        specFlag report.extensions "KmlServer" ∧
    (applyMapServerExtensions report obj).wms =
        specFlag report.extensions "WMSServer" ∧
    (applyMapServerExtensions report obj).wfs =
        specFlag report.extensions "WFSServer" := by
  unfold applyMapServerExtensions
  by_cases hl : report.extensions.length > 0
  · rw [if_pos hl]
    refine ⟨?_, ?_, ?_, ?_⟩ <;>
      simp [hfs, hk, hw, hf, flagFromProps_na_eq_specFlag]
  · rw [if_neg hl]
    have hnil : report.extensions = [] := by
      cases hext : report.extensions with
      | nil => rfl
      | cons e rest => rw [hext] at hl; simp at hl
    refine ⟨?_, ?_, ?_, ?_⟩ <;>
      simp [hnil, specFlag, hfs, hk, hw, hf]

theorem grouped_not_mapserver (report : Report)
    (hg : report.type_ ∈ GROUPED_TYPES_LIST) :
    report.type_ ≠ "MapServer" := by
  intro he
  rw [he] at hg
  exact absurd hg (by decide)

theorem grouped_not_imageserver (report : Report)
    (hg : report.type_ ∈ GROUPED_TYPES_LIST) :
    report.type_ ≠ "ImageServer" := by
  intro he
  rw [he] at hg
  exact absurd hg (by decide)

theorem mapserver_not_grouped (report : Report)
    (hm : report.type_ = "MapServer") :
    report.type_ ∉ GROUPED_TYPES_LIST := by
  rw [hm]
  decide

theorem imageserver_not_grouped (report : Report)
    (hi : report.type_ = "ImageServer") :
    report.type_ ∉ GROUPED_TYPES_LIST := by
  rw [hi]
  decide

end ArchiveScript

/-- C4: a per-layer metadata request is issued for a service if and only if its
declared type is MapServer and its realTimeState is STARTED; every other
service issues no layers request and keeps the default layers value, namely
"NA" for a non-MapServer service and "[]" for a MapServer that is not
running. -/
theorem c4_layers_request (report : ArchiveScript.Report) (folder_name : String) :
    ((ArchiveScript.processReport report folder_name).layersRequested = true ↔
      report.type_ = "MapServer" ∧ report.realTimeState = "STARTED") ∧
    (report.type_ ≠ "MapServer" →
      (ArchiveScript.processReport report folder_name).obj.layers = "NA") ∧
    (report.type_ = "MapServer" → report.realTimeState ≠ "STARTED" →
      (ArchiveScript.processReport report folder_name).obj.layers = "[]") := by
  by_cases hg : report.type_ ∈ ArchiveScript.GROUPED_TYPES_LIST
  · have hnm := ArchiveScript.grouped_not_mapserver report hg
    simp [ArchiveScript.processReport, ArchiveScript.ReportObject.init, hg, hnm]
  · by_cases hm : report.type_ = "MapServer"
    · have hg2 : "MapServer" ∉ ArchiveScript.GROUPED_TYPES_LIST := by decide
      refine ⟨?_, fun h => absurd hm h, ?_⟩
      · simp [ArchiveScript.processReport, ArchiveScript.ReportObject.init,
          hg, hg2, hm, ArchiveScript.applyMapServerExtensions_real_time_status]
      · intro _ hns
        simp only [ArchiveScript.processReport, ArchiveScript.ReportObject.init]
        simp [hg, hg2, hm,
          ArchiveScript.applyMapServerExtensions_real_time_status, hns]
    · by_cases hi : report.type_ = "ImageServer"
      · have hg2 : "ImageServer" ∉ ArchiveScript.GROUPED_TYPES_LIST := by decide
        have hne : ("ImageServer" : String) ≠ "MapServer" := by decide
        simp [ArchiveScript.processReport, ArchiveScript.ReportObject.init,
          hg, hg2, hm, hne, hi]
      · simp [ArchiveScript.processReport, ArchiveScript.ReportObject.init,
          hg, hm, hi]

/-- C4 witness: a stopped MapServer report issues no layers request and keeps
the empty-list layers value. -/
theorem c4_layers_request_witness :
    (ArchiveScript.processReport
        { type_ := "MapServer", serviceName := "M", realTimeState := "STOPPED",
          isCached := "true", extensions := [], layersResponse := [] }
        "A/").obj.layers = "[]" :=
  (c4_layers_request
    { type_ := "MapServer", serviceName := "M", realTimeState := "STOPPED",
      isCached := "true", extensions := [], layersResponse := [] }
    "A/").2.2 rfl (by decide)

/-- C5: for a MapServer report each capability flag (kml, wms, wfs,
FeatureService) equals the scan of the extensions array described by the
specification (value of the first entry with the matching typeName, "NA" when
there is none, in particular when the array is empty); for an ImageServer
report only the wms flag is derived this way and the others stay "NA"; for a
grouped simple type all four flags stay "NA". -/
theorem c5_capability_flags (report : ArchiveScript.Report)
    (folder_name : String) :
    (report.type_ = "MapServer" → ∀ r,
      (ArchiveScript.processReport report folder_name).line = some r →
        r.kml = ArchiveScript.specFlag report.extensions "KmlServer" ∧
        r.wms = ArchiveScript.specFlag report.extensions "WMSServer" ∧
        r.wfs = ArchiveScript.specFlag report.extensions "WFSServer" ∧
        r.featureService =
          ArchiveScript.specFlag report.extensions "FeatureServer") ∧
    (report.type_ = "ImageServer" → ∀ r,
      (ArchiveScript.processReport report folder_name).line = some r →
        r.wms = ArchiveScript.specFlag report.extensions "WMSServer" ∧
        r.kml = "NA" ∧ r.wfs = "NA" ∧ r.featureService = "NA") ∧
    (report.type_ ∈ ArchiveScript.GROUPED_TYPES_LIST → ∀ r,
      (ArchiveScript.processReport report folder_name).line = some r →
        r.kml = "NA" ∧ r.wms = "NA" ∧ r.wfs = "NA" ∧
        r.featureService = "NA") := by
  refine ⟨?_, ?_, ?_⟩
  · intro hm r hr
    have hg2 : "MapServer" ∉ ArchiveScript.GROUPED_TYPES_LIST := by decide
    simp only [ArchiveScript.processReport, ArchiveScript.ReportObject.init,
      hm, hg2, if_false, if_true] at hr
    simp [hm, hg2] at hr
    subst hr
    simp [ArchiveScript.create_json_string_mapserver,
      ArchiveScript.create_base_dictionary]
    exact
      ⟨(ArchiveScript.applyMapServerExtensions_flags report _ rfl rfl rfl rfl).2.1,
       (ArchiveScript.applyMapServerExtensions_flags report _ rfl rfl rfl rfl).2.2.1,
       (ArchiveScript.applyMapServerExtensions_flags report _ rfl rfl rfl rfl).2.2.2,
       (ArchiveScript.applyMapServerExtensions_flags report _ rfl rfl rfl rfl).1⟩
  · intro hi r hr
    have hg2 : "ImageServer" ∉ ArchiveScript.GROUPED_TYPES_LIST := by decide
    have hne : ("ImageServer" : String) ≠ "MapServer" := by decide
    simp [hi, hg2, hne, ArchiveScript.processReport,
      ArchiveScript.ReportObject.init] at hr
    subst hr
    simp [ArchiveScript.create_base_dictionary,
      ArchiveScript.flagFromProps_na_eq_specFlag]
  · intro hgm r hr
    simp [hgm, ArchiveScript.processReport,
      ArchiveScript.ReportObject.init] at hr
    subst hr
    simp [ArchiveScript.create_base_dictionary]

/-- C5 witness: a concrete MapServer report with one enabled WMSServer
extension gets wms equal to that entry and the other flags "NA". -/
theorem c5_capability_flags_witness :
    (ArchiveScript.create_json_string_mapserver
        (ArchiveScript.processReport
            { type_ := "MapServer", serviceName := "M",
              realTimeState := "STOPPED", isCached := "true",
              extensions := [{ typeName := "WMSServer", enabled := "True" }],
              layersResponse := [] }
            "A/").obj).wms = "True" := by
  have h := (c5_capability_flags
    { type_ := "MapServer", serviceName := "M", realTimeState := "STOPPED",
      isCached := "true",
      extensions := [{ typeName := "WMSServer", enabled := "True" }],
      layersResponse := [] }
    "A/").1 rfl
    (ArchiveScript.create_json_string_mapserver
      (ArchiveScript.processReport
          { type_ := "MapServer", serviceName := "M",
            realTimeState := "STOPPED", isCached := "true",
            extensions := [{ typeName := "WMSServer", enabled := "True" }],
            layersResponse := [] }
          "A/").obj)
    (by decide)
  rw [h.2.1]
  decide

/-- C3 amended: one output record (carrying name, folder, declared type and
real-time start state) is written for a service report exactly when its
declared type is one of the grouped simple types, MapServer or ImageServer;
a report with any other declared type produces no output record at all. -/
theorem c3_one_record_amended (report : ArchiveScript.Report)
    (folder_name : String) :
    ((ArchiveScript.processReport report folder_name).line.isSome = true ↔
      (report.type_ ∈ ArchiveScript.GROUPED_TYPES_LIST ∨
        report.type_ = "MapServer" ∨ report.type_ = "ImageServer")) ∧
    (∀ r, (ArchiveScript.processReport report folder_name).line = some r →
      r.serviceName = report.serviceName ∧
      r.folder = ArchiveScript.stripSlashes folder_name ∧
      r.type_ = report.type_ ∧
      r.status = report.realTimeState) := by
  by_cases hg : report.type_ ∈ ArchiveScript.GROUPED_TYPES_LIST
  · constructor
    · simp [ArchiveScript.processReport, ArchiveScript.ReportObject.init, hg]
    · intro r hr
      simp [ArchiveScript.processReport, ArchiveScript.ReportObject.init,
        hg] at hr
      subst hr
      simp [ArchiveScript.create_base_dictionary]
  · by_cases hm : report.type_ = "MapServer"
    · have hg2 : "MapServer" ∉ ArchiveScript.GROUPED_TYPES_LIST := by decide
      constructor
      · simp [ArchiveScript.processReport, ArchiveScript.ReportObject.init,
          hm, hg2]
      · intro r hr
        simp [ArchiveScript.processReport, ArchiveScript.ReportObject.init,
          hm, hg2] at hr
        subst hr
        simp [ArchiveScript.create_json_string_mapserver,
          ArchiveScript.create_base_dictionary,
          ArchiveScript.applyMapServerExtensions_service_name,
          ArchiveScript.applyMapServerExtensions_folder,
          ArchiveScript.applyMapServerExtensions_type,
          ArchiveScript.applyMapServerExtensions_real_time_status, hm]
    · by_cases hi : report.type_ = "ImageServer"
      · have hg2 : "ImageServer" ∉ ArchiveScript.GROUPED_TYPES_LIST := by decide
        have hne : ("ImageServer" : String) ≠ "MapServer" := by decide
        constructor
        · simp [ArchiveScript.processReport, ArchiveScript.ReportObject.init,
            hi, hg2, hne]
        · intro r hr
          simp [ArchiveScript.processReport, ArchiveScript.ReportObject.init,
            hi, hg2, hne] at hr
          subst hr
          simp [ArchiveScript.create_base_dictionary]
          exact hi.symm
      · constructor
        · simp [ArchiveScript.processReport, ArchiveScript.ReportObject.init,
            hg, hm, hi]
        · intro r hr
          simp [ArchiveScript.processReport, ArchiveScript.ReportObject.init,
            hg, hm, hi] at hr

/-- C3 witness: a grouped-type report produces a written record. -/
theorem c3_one_record_amended_witness :
    (ArchiveScript.processReport ArchiveScript.reportGeom "A/").line.isSome =
      true :=
  (c3_one_record_amended ArchiveScript.reportGeom "A/").1.mpr
    (Or.inl (by decide))

/-- C3 counterexample: a folder whose report endpoint returns one service
report of an unrecognized declared type yields an output file with no record
at all, refuting one record per report regardless of type. -/
theorem c3_counterexample :
    ArchiveScript.recordsOf
        (ArchiveScript.mainTokens ArchiveScript.envUnknownType) = [] ∧
    (ArchiveScript.envUnknownType.reports "A/").length = 1 := by
  exact ⟨by decide, by decide⟩

namespace ArchiveScript

theorem line_folder_eq (report : Report) (folder_name : String) :
    ∀ r, (processReport report folder_name).line = some r →
      r.folder = stripSlashes folder_name := by
  intro r hr
  by_cases hg : report.type_ ∈ GROUPED_TYPES_LIST
  · simp [processReport, ReportObject.init, hg] at hr
    subst hr
    simp [create_base_dictionary]
  · by_cases hm : report.type_ = "MapServer"
    · have hg2 : "MapServer" ∉ GROUPED_TYPES_LIST := by decide
      simp [processReport, ReportObject.init, hm, hg2] at hr
      subst hr
      simp [create_json_string_mapserver, create_base_dictionary,
        applyMapServerExtensions_folder]
    · by_cases hi : report.type_ = "ImageServer"
      · have hg2 : "ImageServer" ∉ GROUPED_TYPES_LIST := by decide
        have hne : ("ImageServer" : String) ≠ "MapServer" := by decide
        simp [processReport, ReportObject.init, hi, hg2, hne] at hr
        subst hr
        simp [create_base_dictionary]
      · simp [processReport, ReportObject.init, hg, hm, hi] at hr

theorem mem_linesOf_folder (folder_name : String) :
    ∀ (reports : List Report) (r : OutRecord),
      r ∈ linesOf folder_name reports →
      r.folder = stripSlashes folder_name := by
  intro reports
  induction reports with
  | nil => intro r hr; simp [linesOf] at hr
  | cons report rest ih =>
    intro r hr
    cases hline : (processReport report folder_name).line with
    | none =>
      simp only [linesOf, hline] at hr
      exact ih r hr
    | some q =>
      simp only [linesOf, hline, List.mem_cons] at hr
      rcases hr with rfl | hr
      · exact line_folder_eq report folder_name r hline
      · exact ih r hr

theorem mem_allRecords (env : Env) :
    ∀ (fs : List String) (rec : OutRecord), rec ∈ allRecords env fs →
      ∃ f ∈ fs, rec ∈ emittedRecords env f := by
  intro fs
  induction fs with
  | nil => intro rec hrec; simp [allRecords] at hrec
  | cons folder rest ih =>
    intro rec hrec
    rw [allRecords_cons] at hrec
    rcases List.mem_append.mp hrec with h | h
    · exact ⟨folder, List.mem_cons_self folder rest, h⟩
    · obtain ⟨f, hf, hrec2⟩ := ih rec h
      exact ⟨f, List.mem_cons_of_mem folder hf, hrec2⟩

theorem requestsOf_shape :
    ∀ (fs : List String) (r : String), r ∈ requestsOf fs →
      ∃ f, (f == "" || f == "/") = false ∧ r = f ++ "/" := by
  intro fs
  induction fs with
  | nil => intro r hr; simp [requestsOf] at hr
  | cons folder rest ih =>
    intro r hr
    by_cases hskip : (folder == "" || folder == "/") = true
    · simp only [requestsOf, hskip, if_true, List.nil_append] at hr
      exact ih r hr
    · have hskip2 : (folder == "" || folder == "/") = false := by
        simpa using hskip
      simp only [requestsOf, hskip2, Bool.false_eq_true, if_false,
        List.singleton_append, List.mem_cons] at hr
      rcases hr with rfl | hr
      · exact ⟨folder, hskip2, rfl⟩
      · exact ih r hr

theorem append_slash_ne_empty (f : String) : f ++ "/" ≠ "" := by
  intro h
  have h2 := congrArg String.data h
  simp [String.data_append] at h2

theorem append_slash_eq_root (f : String) (h : f ++ "/" = "/") : f = "" := by
  have h2 := congrArg String.data h
  simp only [String.data_append] at h2
  apply String.ext
  cases hd : f.data with
  | nil => rfl
  | cons c cs => rw [hd] at h2; simp at h2

end ArchiveScript

/-- C1 amended: the output token stream is the opening bracket, then the
written records separated by exactly one comma (no comma before the first
record and none after the last), then the closing bracket — provided the run
either writes no records at all or the last enumerated folder contributes at
least one written record.  When an earlier folder writes records but every
later folder (the last one in particular) writes none, a comma is left after
the last record, as the counterexample shows. -/
theorem c1_comma_separation_amended (env : ArchiveScript.Env)
    (h : (∀ f ∈ ArchiveScript.processFolders env.folders,
            ArchiveScript.emittedRecords env f = []) ∨
         (∃ g, (ArchiveScript.processFolders env.folders).getLast? = some g ∧
            ArchiveScript.emittedRecords env g ≠ [])) :
    ArchiveScript.mainTokens env =
      ArchiveScript.Token.lb ::
        (ArchiveScript.sepTokens
            (ArchiveScript.recordsOf (ArchiveScript.mainTokens env)) ++
          [ArchiveScript.Token.rb]) := by
  have hbody : (ArchiveScript.mainRun env).tokens =
      ArchiveScript.sepTokens
        (ArchiveScript.allRecords env
          (ArchiveScript.processFolders env.folders)) := by
    rw [ArchiveScript.mainRun_eq]
    rcases h with h | ⟨g, hg1, hg2⟩
    · rw [ArchiveScript.bodyTokens_all_empty env _ _ 0 h,
        ArchiveScript.allRecords_eq_nil env _ h]
      rfl
    · exact ArchiveScript.bodyTokens_last_producer env _ _ 0 g (by simp) hg1 hg2
  rw [ArchiveScript.mainTokens_records]
  unfold ArchiveScript.mainTokens
  rw [hbody]

/-- C1 witness: a run whose single real folder writes one record satisfies the
comma-separation shape. -/
theorem c1_comma_separation_witness :
    ArchiveScript.mainTokens ArchiveScript.envOneFolder =
      ArchiveScript.Token.lb ::
        (ArchiveScript.sepTokens
            (ArchiveScript.recordsOf
              (ArchiveScript.mainTokens ArchiveScript.envOneFolder)) ++
          [ArchiveScript.Token.rb]) :=
  c1_comma_separation_amended ArchiveScript.envOneFolder
    (Or.inr ⟨"A", by decide, by decide⟩)

/-- C1 counterexample: in the run envTrailingComma the folder A writes a
record, the later folder B writes none, and the resulting token stream ends
with a comma directly before the closing bracket — a comma after the last
written record, refuting the claimed invariant for every sequence of folders
and reports. -/
theorem c1_comma_separation_counterexample :
    ArchiveScript.mainTokens ArchiveScript.envTrailingComma ≠
      ArchiveScript.Token.lb ::
        (ArchiveScript.sepTokens
            (ArchiveScript.recordsOf
              (ArchiveScript.mainTokens ArchiveScript.envTrailingComma)) ++
          [ArchiveScript.Token.rb]) ∧
    (ArchiveScript.mainTokens ArchiveScript.envTrailingComma).getLast? =
      some ArchiveScript.Token.rb ∧
    (ArchiveScript.mainTokens
        ArchiveScript.envTrailingComma).dropLast.getLast? =
      some ArchiveScript.Token.comma ∧
    ArchiveScript.recordsOf
        (ArchiveScript.mainTokens ArchiveScript.envTrailingComma) ≠ [] := by
  exact ⟨by decide, by decide, by decide, by decide⟩

/-- C6: the records in the output file are exactly the concatenation, folder
by folder in enumeration order, of the written lines of each folder in report
order; the enumerated folder list is sorted and contains neither System nor
Utilities. -/
theorem c6_record_order (env : ArchiveScript.Env) :
    ArchiveScript.recordsOf (ArchiveScript.mainTokens env) =
      ArchiveScript.allRecords env (ArchiveScript.processFolders env.folders) ∧
    List.Pairwise ArchiveScript.strLe
      (ArchiveScript.processFolders env.folders) ∧
    "System" ∉ ArchiveScript.processFolders env.folders ∧
    "Utilities" ∉ ArchiveScript.processFolders env.folders := by
  refine ⟨ArchiveScript.mainTokens_records env, ?_, ?_, ?_⟩
  · exact List.sorted_insertionSort ArchiveScript.strLe _
  · intro hmem
    unfold ArchiveScript.processFolders at hmem
    have hmem2 := (List.perm_insertionSort ArchiveScript.strLe _).mem_iff.mp hmem
    rcases List.mem_append.mp hmem2 with h | h
    · have h2 := ArchiveScript.mem_of_mem_dedupStrAux _ _ _ h
      have h3 := (List.mem_filter.mp h2).2
      exact absurd h3 (by decide)
    · simp at h
  · intro hmem
    unfold ArchiveScript.processFolders at hmem
    have hmem2 := (List.perm_insertionSort ArchiveScript.strLe _).mem_iff.mp hmem
    rcases List.mem_append.mp hmem2 with h | h
    · have h2 := ArchiveScript.mem_of_mem_dedupStrAux _ _ _ h
      have h3 := (List.mem_filter.mp h2).2
      exact absurd h3 (by decide)
    · simp at h

/-- C6 witness: the record extraction equality at a concrete run. -/
theorem c6_record_order_witness :
    ArchiveScript.recordsOf
        (ArchiveScript.mainTokens ArchiveScript.envOneFolder) =
      ArchiveScript.allRecords ArchiveScript.envOneFolder
        (ArchiveScript.processFolders ArchiveScript.envOneFolder.folders) :=
  (c6_record_order ArchiveScript.envOneFolder).1

/-- C9 amended: the root entry is skipped before any request, so every issued
report request names a non-empty, non-root folder url ending in a slash and
the branch renaming the folder to Root never fires (folderNameFor is the
identity on every requested url); every written record takes its Folder value
from an actual enumerated folder with its slashes removed — so a record can
only carry Folder "Root" when the server itself exposes a folder whose name
strips to Root, as the counterexample shows. -/
theorem c9_root_amended (env : ArchiveScript.Env) :
    (∀ r ∈ ArchiveScript.mainRequests env,
      r ≠ "" ∧ r ≠ "/" ∧ ArchiveScript.folderNameFor r = r) ∧
    (∀ rec ∈ ArchiveScript.recordsOf (ArchiveScript.mainTokens env),
      ∃ f ∈ ArchiveScript.processFolders env.folders,
        (f == "" || f == "/") = false ∧
        rec.folder = ArchiveScript.stripSlashes (f ++ "/")) := by
  constructor
  · intro r hr
    rw [ArchiveScript.mainRequests_eq] at hr
    obtain ⟨f, hf, rfl⟩ := ArchiveScript.requestsOf_shape _ r hr
    have hne := ArchiveScript.append_slash_ne_empty f
    have hfne : f ≠ "" := by
      intro he
      subst he
      simp at hf
    refine ⟨hne, ?_, ?_⟩
    · intro he
      exact hfne (ArchiveScript.append_slash_eq_root f he)
    · have hb : (f ++ "/" == "") = false := beq_eq_false_iff_ne.mpr hne
      simp [ArchiveScript.folderNameFor, hb]
  · intro rec hrec
    rw [ArchiveScript.mainTokens_records] at hrec
    obtain ⟨f, hf, hrec2⟩ := ArchiveScript.mem_allRecords env _ rec hrec
    have hskip : (f == "" || f == "/") = false := by
      cases hb : (f == "" || f == "/") with
      | false => rfl
      | true => simp [ArchiveScript.emittedRecords, hb] at hrec2
    refine ⟨f, hf, hskip, ?_⟩
    rw [ArchiveScript.emittedRecords, if_neg (by simp [hskip])] at hrec2
    have hfold := ArchiveScript.mem_linesOf_folder _ _ rec hrec2
    have hne := ArchiveScript.append_slash_ne_empty f
    have hb : (f ++ "/" == "") = false := beq_eq_false_iff_ne.mpr hne
    rw [hfold]
    simp [ArchiveScript.folderNameFor, hb]

/-- C9 witness: in a concrete run the single issued request url is non-empty,
is not the bare root url, and is not renamed by the Root branch. -/
theorem c9_root_amended_witness :
    "A/" ≠ "" ∧ "A/" ≠ "/" ∧ ArchiveScript.folderNameFor "A/" = "A/" :=
  (c9_root_amended ArchiveScript.envOneFolder).1 "A/" (by decide)

/-- C9 counterexample: when the server exposes a folder literally named Root,
the written record carries Folder "Root", refuting that no output record ever
has Folder equal to Root. -/
theorem c9_root_counterexample :
    (ArchiveScript.recordsOf
        (ArchiveScript.mainTokens ArchiveScript.envRootFolder)).map
      (fun r => r.folder) = ["Root"] := by
  decide
